import Mathlib

/-!
Shallow embedding of the lzd disassembler core (ring queue, worker pool,
code-range scanner, string/symbol extraction, ELF header parsing, command
handling), with theorems settling the specification claims C1-C10.

Machine bytes are modelled as `Nat`; fixed-width machine arithmetic is made
explicit with `% 2^w` where the width can matter.  C loops over indices are
embedded as structurally recursive functions on an explicit fuel argument
chosen as the exact loop bound, so that every definition evaluates by kernel
reduction.
-/

namespace Lzd

/-! ## Ring queue (ring.c)

The ring stores opaque job pointers; jobs are modelled as `Nat` identifiers.
Empty slots (`NULL` in the source) are `none`. -/

structure ring_t where
  data : List (Option Nat)
  capacity : Nat
  head : Nat
  tail : Nat
  count : Nat
deriving DecidableEq, Repr

/-- `ring_init`: a fresh ring with capacity 16. -/
def ring_init : ring_t :=
  { data := List.replicate 16 none, capacity := 16, head := 0, tail := 0, count := 0 }

/-- `ring_grow`: double the capacity, linearising the live window to the front.
`alloc_ok` models whether the `calloc` for the new buffer succeeds. -/
def ring_grow (alloc_ok : Bool) (r : ring_t) : Int × ring_t :=
  if !alloc_ok then (-1, r)
  else
    let new_capacity := if r.capacity == 0 then 16 else r.capacity * 2
    let items := (List.range r.count).map (fun i => r.data.getD ((r.head + i) % r.capacity) none)
    let tmp := items ++ List.replicate (new_capacity - r.count) none
    (0, { data := tmp, capacity := new_capacity, head := 0, tail := r.count, count := r.count })

/-- `ring_push`: grow when full (failure propagates as -1), then append at the tail. -/
def ring_push (alloc_ok : Bool) (r0 : ring_t) (item : Nat) : Int × ring_t :=
  let g := if r0.count == r0.capacity then ring_grow alloc_ok r0 else (0, r0)
  if g.1 ≠ 0 then (-1, r0)
  else
    let r := g.2
    (0, { r with data := r.data.set r.tail (some item),
                 tail := (r.tail + 1) % r.capacity,
                 count := r.count + 1 })

/-- `ring_pop`: O(1) removal from the head, or `none` when empty. -/
def ring_pop (r : ring_t) : Option Nat × ring_t :=
  if r.count == 0 then (none, r)
  else
    let item := r.data.getD r.head none
    (item, { r with data := r.data.set r.head none,
                    head := (r.head + 1) % r.capacity,
                    count := r.count - 1 })

/-! ## Worker pool (wrk.c)

Pool state guarded by the mutex: the job queue and the `queued`, `active`,
`shutting_down` fields.  Threads, mutex and condition variables carry no
state beyond this; the condition `wrk_pool_drain` waits on is modelled as the
predicate `wrk_pool_drain_returns`. -/

structure wrk_pool_t where
  job_queue : ring_t
  queued : Nat
  active : Nat
  shutting_down : Bool
deriving DecidableEq, Repr

/-- The pool state established by `wrk_pool_create` (all counters zero,
fresh ring queue). -/
def wrk_pool_create_state : wrk_pool_t :=
  { job_queue := ring_init, queued := 0, active := 0, shutting_down := false }

/-- `wrk_pool_post`: allocate a job (`job_alloc_ok` models the `calloc` in
`job_make`), fail when shutting down, otherwise `ring_push` the job (whose
return value the source ignores; `push_alloc_ok` models the grow allocation)
and signal `has_work`.  Note the source never increments `queued`. -/
def wrk_pool_post (pool : wrk_pool_t) (job_alloc_ok push_alloc_ok : Bool)
    (job : Nat) : Int × wrk_pool_t :=
  if !job_alloc_ok then (-1, pool)
  else if pool.shutting_down then (-1, pool)
  else
    let p := ring_push push_alloc_ok pool.job_queue job
    (0, { pool with job_queue := p.2 })

/-- The wait condition of `wrk_pool_drain`: it returns exactly when
`queued == 0 && active == 0`. -/
def wrk_pool_drain_returns (pool : wrk_pool_t) : Bool :=
  pool.queued == 0 && pool.active == 0

/-- The dequeue step of `wrk_main` (lines 59-61): pop one job under the lock
and increment `active` before running it. -/
def wrk_take (pool : wrk_pool_t) : Option Nat × wrk_pool_t :=
  let p := ring_pop pool.job_queue
  (p.1, { pool with job_queue := p.2, active := pool.active + 1 })

/-- C1.  `wrk_pool_post` never increments `queued` (no code in wrk.c does),
so immediately after one successful post - before any worker has performed
the `wrk_take` step - the predicate `wrk_pool_drain` waits on is already
true while the posted job still sits in the queue uninvoked.  Hence `drain`
can return with a posted job never run and the queue non-empty, refuting the
claim; the in-source comments ("if there are no jobs queued or active"), the
header documentation of `drain`, and the pool test (posting 1000 jobs then
draining) show the claim states the intent and the code is a slip. -/
theorem c1_drain_predicate_holds_with_job_queued :
    (wrk_pool_post wrk_pool_create_state true true 0).1 = 0 ∧
    wrk_pool_drain_returns (wrk_pool_post wrk_pool_create_state true true 0).2 = true ∧
    (wrk_pool_post wrk_pool_create_state true true 0).2.job_queue.count = 1 := by
  decide

/-- A full ring (16 slots occupied) with both counters zero, used to exercise
the grow-failure path of `ring_push` from inside `wrk_pool_post`. -/
def full_pool : wrk_pool_t :=
  { job_queue := { data := List.replicate 16 (some 5), capacity := 16,
                   head := 0, tail := 0, count := 16 },
    queued := 0, active := 0, shutting_down := false }

/-- C2.  Two divergences of `wrk_pool_post` from the claim, each at a concrete
input: (a) a successful post on a fresh pool leaves `queued = 0` (the source
never increments it, though `wrk_main` and `wrk_pool_drain` test it); (b) on
a full ring whose grow allocation fails, `ring_push` returns -1 but the
source discards that value, so the post reports success with the job never
enqueued (the queue is bitwise unchanged). -/
theorem c2_post_succeeds_without_queued_increment :
    ((wrk_pool_post wrk_pool_create_state true true 7).1 = 0 ∧
     (wrk_pool_post wrk_pool_create_state true true 7).2.queued = 0) ∧
    ((wrk_pool_post full_pool true false 7).1 = 0 ∧
     (wrk_pool_post full_pool true false 7).2.job_queue = full_pool.job_queue) := by
  decide

/-! ## Code-range scanner (emit.c) -/

/-- `is_padding`: the byte is `0x00`, `0x90` or `0xcc`. -/
def is_padding (b : Nat) : Bool :=
  b == 0x00 || b == 0x90 || b == 0xcc

/-- The running-count loop of `is_padding_run`: `count` consecutive padding
bytes seen so far; report success as soon as `count >= min_run`. -/
def prun_go (min_run : Nat) : List Nat → Nat → Bool
  | [], _ => false
  | b :: rest, count =>
    let c := if is_padding b then count + 1 else 0
    if min_run ≤ c then true else prun_go min_run rest c

/-- `is_padding_run(data, length, min_run)`: the data/length pair is a list. -/
def is_padding_run (data : List Nat) (min_run : Nat) : Bool :=
  prun_go min_run data 0

structure code_range_t where
  vaddr : Nat
  offset : Nat
  length : Nat
deriving DecidableEq, Repr

/-- Inner loop of `emit_scan_text`: from position `i`, advance until a
16-byte all-padding window starts at the current position (or the text
ends); returns the stop position.  `fuel` is the loop bound `n - i`. -/
def scanEnd_go (text : List Nat) : Nat → Nat → Nat
  | 0, i => i
  | fuel + 1, i =>
    if i < text.length then
      if i + 16 ≤ text.length && is_padding_run ((text.drop i).take 16) 16 then i
      else scanEnd_go text fuel (i + 1)
    else i

def scanEnd (text : List Nat) (i : Nat) : Nat :=
  scanEnd_go text (text.length - i) i

/-- Outer loop of `emit_scan_text`: skip padding; at a non-padding byte record
`start`, run the inner loop, and emit the range when non-empty.  `fuel` is
again the loop bound `n - i`. -/
def scanFrom_go (text : List Nat) (tvaddr : Nat) : Nat → Nat → List code_range_t
  | 0, _ => []
  | fuel + 1, i =>
    if i < text.length then
      if is_padding (text.getD i 0) then scanFrom_go text tvaddr fuel (i + 1)
      else
        let e := scanEnd text i
        (if 0 < e - i then [⟨tvaddr + i, i, e - i⟩] else []) ++
          scanFrom_go text tvaddr fuel e
    else []

def scanFrom (text : List Nat) (tvaddr : Nat) : List code_range_t :=
  scanFrom_go text tvaddr text.length 0

/-- `emit_ctx_t`, restricted to the fields `emit_scan_text` touches. -/
structure emit_ctx_t where
  text_vaddr : Nat
  text_data : List Nat
  code_ranges : List code_range_t
deriving DecidableEq, Repr

/-- `emit_scan_text`: pushes the scanned ranges onto the context's existing
`code_ranges` sequence (the source never clears it). -/
def emit_scan_text (ctx : emit_ctx_t) : emit_ctx_t :=
  { ctx with code_ranges := ctx.code_ranges ++ scanFrom ctx.text_data ctx.text_vaddr }

/-- C8 counterexample.  On a context holding the single byte `0x48`, one scan
produces one range but a second scan over the unchanged bytes leaves two
ranges: `emit_scan_text` is not idempotent on the context state. -/
theorem c8_second_scan_duplicates_ranges :
    (emit_scan_text (emit_scan_text ⟨0, [0x48], []⟩)).code_ranges ≠
      (emit_scan_text ⟨0, [0x48], []⟩).code_ranges := by
  decide

/-- C8 amended.  `emit_scan_text` appends the ranges computed from the text
(which depend only on the text, hence are the same on both runs) to the
existing sequence; a second run therefore appends a second copy rather than
leaving the sequence unchanged. -/
theorem c8_scan_appends_same_ranges (ctx : emit_ctx_t) :
    (emit_scan_text ctx).code_ranges =
      ctx.code_ranges ++ scanFrom ctx.text_data ctx.text_vaddr ∧
    (emit_scan_text (emit_scan_text ctx)).code_ranges =
      ctx.code_ranges ++ scanFrom ctx.text_data ctx.text_vaddr ++
        scanFrom ctx.text_data ctx.text_vaddr := by
  exact ⟨rfl, rfl⟩

/-- If `prun_go` reports a padding run, the threshold is at most the starting
count plus the number of remaining bytes. -/
lemma prun_go_true_le (m : Nat) :
    ∀ (l : List Nat) (c : Nat), prun_go m l c = true → m ≤ c + l.length := by
  intro l
  induction l with
  | nil => intro c h; simp [prun_go] at h
  | cons b rest ih =>
    intro c h
    simp only [prun_go] at h
    have hb : (if is_padding b then c + 1 else 0) ≤ c + 1 := by split <;> omega
    by_cases hm : m ≤ (if is_padding b then c + 1 else 0)
    · simp only [List.length_cons]; omega
    · rw [if_neg hm] at h
      have := ih _ h
      simp only [List.length_cons]; omega

/-- A 16-byte window that starts at a non-padding byte is never an all-padding
run: the running count resets at the head and at most 15 bytes remain. -/
lemma is_padding_run_window_false (text : List Nat) (i : Nat) (hi : i < text.length)
    (hp : is_padding (text.getD i 0) = false) :
    is_padding_run ((text.drop i).take 16) 16 = false := by
  have hdrop : text.drop i = text.getD i 0 :: text.drop (i + 1) := by
    rw [List.getD_eq_getElem text 0 hi]
    exact List.drop_eq_getElem_cons hi
  rw [hdrop, List.take_succ_cons]
  have hlen : ((text.drop (i + 1)).take 15).length ≤ 15 := List.length_take_le _ _
  have hrest : prun_go 16 ((text.drop (i + 1)).take 15) 0 = false := by
    by_contra hx
    have hx' : prun_go 16 ((text.drop (i + 1)).take 15) 0 = true := by
      revert hx; cases prun_go 16 ((text.drop (i + 1)).take 15) 0 <;> simp
    have := prun_go_true_le 16 _ 0 hx'
    omega
  have hp2 : is_padding (text[i]?.getD 0) = false := by simpa [List.getD] using hp
  simp [is_padding_run, prun_go, List.getD, hp2, hrest]

lemma scanEnd_go_ge (text : List Nat) : ∀ fuel i, i ≤ scanEnd_go text fuel i := by
  intro fuel
  induction fuel with
  | zero => intro i; simp [scanEnd_go]
  | succ f ih =>
    intro i
    simp only [scanEnd_go]
    split
    · split
      · exact Nat.le_refl i
      · exact Nat.le_trans (by omega) (ih (i + 1))
    · exact Nat.le_refl i

lemma scanEnd_go_le (text : List Nat) :
    ∀ fuel i, text.length ≤ i + fuel → i ≤ text.length →
      scanEnd_go text fuel i ≤ text.length := by
  intro fuel
  induction fuel with
  | zero => intro i _ h2; simpa [scanEnd_go] using h2
  | succ f ih =>
    intro i h1 h2
    simp only [scanEnd_go]
    split
    · split
      · omega
      · exact ih (i + 1) (by omega) (by omega)
    · omega

lemma scanEnd_ge (text : List Nat) (i : Nat) : i ≤ scanEnd text i :=
  scanEnd_go_ge text _ i

lemma scanEnd_le (text : List Nat) (i : Nat) (h : i ≤ text.length) :
    scanEnd text i ≤ text.length :=
  scanEnd_go_le text _ i (by omega) h

/-- At an in-bounds non-padding byte the inner loop makes at least one step:
the 16-byte window check at the start position always fails. -/
lemma scanEnd_gt (text : List Nat) (i : Nat) (hi : i < text.length)
    (hp : is_padding (text.getD i 0) = false) :
    i + 1 ≤ scanEnd text i := by
  unfold scanEnd
  have hfuel : text.length - i = (text.length - (i + 1)) + 1 := by omega
  rw [hfuel]
  simp only [scanEnd_go]
  have hcond : (decide (i + 16 ≤ text.length) &&
      is_padding_run ((text.drop i).take 16) 16) = false := by
    by_cases h16 : i + 16 ≤ text.length
    · simp [is_padding_run_window_false text i hi hp]
    · simp [h16]
  rw [if_pos hi, hcond]
  simpa using scanEnd_go_ge text (text.length - (i + 1)) (i + 1)

/-- Every emitted range lies at or after the scan position, is non-empty,
stays inside the text, and carries `vaddr = text_vaddr + offset`. -/
lemma scanFrom_go_sound (text : List Nat) (v : Nat) :
    ∀ fuel i, ∀ r ∈ scanFrom_go text v fuel i,
      i ≤ r.offset ∧ 0 < r.length ∧ r.offset + r.length ≤ text.length ∧
        r.vaddr = v + r.offset := by
  intro fuel
  induction fuel with
  | zero => intro i r hr; simp [scanFrom_go] at hr
  | succ f ih =>
    intro i r hr
    simp only [scanFrom_go] at hr
    by_cases hi : i < text.length
    · rw [if_pos hi] at hr
      by_cases hp : is_padding (text.getD i 0)
      · rw [if_pos hp] at hr
        have := ih (i + 1) r hr
        exact ⟨by omega, this.2⟩
      · rw [if_neg hp] at hr
        rcases List.mem_append.1 hr with hr0 | hrec
        · have hle : scanEnd text i ≤ text.length := scanEnd_le text i (by omega)
          have hge : i ≤ scanEnd text i := scanEnd_ge text i
          rcases Nat.lt_or_ge i (scanEnd text i) with hlt | hge2
          · rw [if_pos (by omega)] at hr0
            simp at hr0
            subst hr0
            refine ⟨Nat.le_refl _, ?_, ?_, rfl⟩
            · show 0 < scanEnd text i - i
              omega
            · show i + (scanEnd text i - i) ≤ text.length
              omega
          · rw [if_neg (by omega)] at hr0
            simp at hr0
        · have := ih (scanEnd text i) r hrec
          have hge : i ≤ scanEnd text i := scanEnd_ge text i
          exact ⟨by omega, this.2⟩
    · rw [if_neg hi] at hr
      simp at hr

/-- The emitted ranges are ordered and pairwise non-overlapping. -/
lemma scanFrom_go_pairwise (text : List Nat) (v : Nat) :
    ∀ fuel i, List.Pairwise (fun a b : code_range_t => a.offset + a.length ≤ b.offset)
      (scanFrom_go text v fuel i) := by
  intro fuel
  induction fuel with
  | zero => intro i; simp [scanFrom_go]
  | succ f ih =>
    intro i
    simp only [scanFrom_go]
    split
    · split
      · exact ih (i + 1)
      · rw [List.pairwise_append]
        refine ⟨?_, ih (scanEnd text i), ?_⟩
        · split <;> simp
        · intro a ha b hb
          have hge : i ≤ scanEnd text i := scanEnd_ge text i
          have hb' := scanFrom_go_sound text v f (scanEnd text i) b hb
          rcases List.mem_singleton.1 (by
            revert ha; split
            · intro ha; exact ha
            · intro ha; simp at ha) with ha'
          subst ha'
          simp
          omega
    · simp

/-- Every in-bounds non-padding byte is covered by some emitted range. -/
lemma scanFrom_go_covers (text : List Nat) (v : Nat) :
    ∀ fuel i j, text.length ≤ i + fuel → i ≤ j → j < text.length →
      is_padding (text.getD j 0) = false →
      ∃ r ∈ scanFrom_go text v fuel i, r.offset ≤ j ∧ j < r.offset + r.length := by
  intro fuel
  induction fuel with
  | zero => intro i j h1 h2 h3 _; omega
  | succ f ih =>
    intro i j h1 h2 h3 hj
    have hi : i < text.length := by omega
    simp only [scanFrom_go]
    rw [if_pos hi]
    by_cases hp : is_padding (text.getD i 0)
    · rw [if_pos hp]
      have hij : i ≠ j := by
        intro he; rw [he] at hp; rw [hp] at hj; simp at hj
      exact ih (i + 1) j (by omega) (by omega) h3 hj
    · rw [if_neg hp]
      have hgt : i + 1 ≤ scanEnd text i := scanEnd_gt text i hi (by simpa using hp)
      rw [if_pos (by omega)]
      rcases Nat.lt_or_ge j (scanEnd text i) with hlt | hge
      · exact ⟨⟨v + i, i, scanEnd text i - i⟩, by simp, by simp; omega⟩
      · rcases ih (scanEnd text i) j (by omega) hge h3 hj with ⟨r, hr, hcov⟩
        exact ⟨r, by simp [hr], hcov⟩

/-- C3 counterexample.  On the text `48 00 48` the scanner emits the single
range `(0, 0, 3)`, which covers offset 1 although byte `0x00` there is a
padding byte: the union of emitted ranges is not the claimed set of
non-padding offsets (interior padding runs shorter than 16 are covered). -/
theorem c3_union_includes_padding_byte :
    ∃ r ∈ (emit_scan_text ⟨0, [0x48, 0x00, 0x48], []⟩).code_ranges,
      r.offset ≤ 1 ∧ 1 < r.offset + r.length ∧
        is_padding ([0x48, 0x00, 0x48].getD 1 0) = true := by
  exact ⟨⟨0, 0, 3⟩, by decide, by decide, by decide, by decide⟩

/-- C3 amended.  On a fresh context the ranges emitted by `emit_scan_text`
are ordered by offset and pairwise non-overlapping, each is non-empty, lies
inside the text and has `vaddr = text_vaddr + offset`, and their union
covers every non-padding offset (so uncovered offsets hold only padding
bytes); the union may additionally cover padding bytes interior to a range,
so it is a superset of - not equal to - the set of non-padding offsets. -/
theorem c3_ranges_ordered_bounded_cover_nonpadding (text : List Nat) (v : Nat) :
    List.Pairwise (fun a b : code_range_t => a.offset + a.length ≤ b.offset)
      (emit_scan_text ⟨v, text, []⟩).code_ranges ∧
    (∀ r ∈ (emit_scan_text ⟨v, text, []⟩).code_ranges,
      0 < r.length ∧ r.offset + r.length ≤ text.length ∧ r.vaddr = v + r.offset) ∧
    (∀ j, j < text.length → is_padding (text.getD j 0) = false →
      ∃ r ∈ (emit_scan_text ⟨v, text, []⟩).code_ranges,
        r.offset ≤ j ∧ j < r.offset + r.length) := by
  have hrs : (emit_scan_text ⟨v, text, []⟩).code_ranges =
      scanFrom_go text v text.length 0 := by
    simp [emit_scan_text, scanFrom]
  rw [hrs]
  refine ⟨scanFrom_go_pairwise text v _ 0, ?_, ?_⟩
  · intro r hr
    exact (scanFrom_go_sound text v _ 0 r hr).2
  · intro j hj hpj
    exact scanFrom_go_covers text v text.length 0 j (by omega) (Nat.zero_le j) hj hpj

/-- The `.text` bytes of spec scenario 1: two leading `nop`s, four code
bytes, a 16-byte `int3` run, and two trailing code bytes. -/
def c3_scenario_text : List Nat :=
  [0x90, 0x90, 0x48, 0x89, 0xE5, 0xC3] ++ List.replicate 16 0xCC ++ [0x48, 0xC3]

theorem c3_witness :
    ∃ r ∈ (emit_scan_text ⟨0, c3_scenario_text, []⟩).code_ranges,
      r.offset ≤ 2 ∧ 2 < r.offset + r.length :=
  (c3_ranges_ordered_bounded_cover_nonpadding c3_scenario_text 0).2.2 2
    (by decide) (by decide)

/-! ## Printable-string extraction (emit.c) -/

/-- `is_printable`: printable ASCII. -/
def is_printable (c : Nat) : Bool :=
  0x20 ≤ c && c ≤ 0x7e

/-- The alphanumeric count of the `is_valid_string` loop. -/
def alnum_count (s : List Nat) : Nat :=
  s.countP (fun c => (65 ≤ c && c ≤ 90) || (97 ≤ c && c ≤ 122) || (48 ≤ c && c ≤ 57))

/-- The space count of the `is_valid_string` loop. -/
def space_count (s : List Nat) : Nat :=
  s.countP (fun c => c == 32)

/-- `is_valid_string`: at least 50% alphanumeric and not all spaces. -/
def is_valid_string (s : List Nat) : Bool :=
  if s.length == 0 then false
  else (s.length ≤ alnum_count s * 2) && (space_count s < s.length)

/-- The per-section scan loop of `emit_extract_strings`: walk `data` from
index `j` with run state `(start, in_string)`; flush a maximal printable run
when a non-printable byte is reached, keeping it only when it is long enough
and `is_valid_string`.  `fuel` is the loop bound `n - j`; note that a run
still open when the loop ends is discarded. -/
def extract_go (data : List Nat) (min_len : Nat) :
    Nat → Nat → Nat → Bool → List (List Nat)
  | 0, _, _, _ => []
  | fuel + 1, j, start, in_string =>
    if j < data.length then
      if is_printable (data.getD j 0) && data.getD j 0 != 0 then
        if in_string then extract_go data min_len fuel (j + 1) start true
        else extract_go data min_len fuel (j + 1) j true
      else
        let rest := extract_go data min_len fuel (j + 1) start false
        if in_string then
          if min_len ≤ j - start &&
              is_valid_string ((data.drop start).take (j - start)) then
            ((data.drop start).take (j - start)) :: rest
          else rest
        else rest
    else []

/-- One section's scan (`emit_extract_strings` body for one qualifying
section, after its bytes have been read from the file). -/
def emit_extract_strings_scan (data : List Nat) (min_len : Nat) : List (List Nat) :=
  extract_go data min_len data.length 0 0 false

/-- `emit_extract_strings`: the concatenation of the per-section scans over
the qualifying sections' bytes (file I/O supplies `sections`). -/
def emit_extract_strings (sections : List (List Nat)) (min_len : Nat) : List (List Nat) :=
  sections.flatMap (fun d => emit_extract_strings_scan d min_len)

/-- Members of a `drop`/`take` slice are values of the base list at indices
inside the slice window. -/
lemma mem_drop_take (l : List Nat) (s t b : Nat) (hb : b ∈ (l.drop s).take t) :
    ∃ k, s ≤ k ∧ k < s + t ∧ k < l.length ∧ l.getD k 0 = b := by
  obtain ⟨i, hi, hgot⟩ := List.getElem_of_mem hb
  have hlen : ((l.drop s).take t).length = min t (l.length - s) := by simp
  have hi' : i < t ∧ i < l.length - s := by
    rw [hlen] at hi; omega
  have hidx : s + i < l.length := by omega
  refine ⟨s + i, by omega, by omega, hidx, ?_⟩
  rw [List.getD_eq_getElem l 0 hidx]
  rw [List.getElem_take, List.getElem_drop] at hgot
  exact hgot

/-- Every string flushed by the scan loop meets the length bound, consists of
printable bytes, and passes `is_valid_string`. -/
lemma extract_go_sound (data : List Nat) (min_len : Nat) :
    ∀ fuel j start in_string,
      (in_string = true → start ≤ j ∧
        ∀ k, start ≤ k → k < j → is_printable (data.getD k 0) = true) →
      ∀ s ∈ extract_go data min_len fuel j start in_string,
        min_len ≤ s.length ∧ (∀ b ∈ s, is_printable b = true) ∧
          is_valid_string s = true := by
  intro fuel
  induction fuel with
  | zero => intro j start in_string _ s hs; simp [extract_go] at hs
  | succ f ih =>
    intro j start in_string hinv s hs
    simp only [extract_go] at hs
    by_cases hj : j < data.length
    · rw [if_pos hj] at hs
      by_cases hb : is_printable (data.getD j 0) && data.getD j 0 != 0
      · rw [if_pos hb] at hs
        have hpj : is_printable (data.getD j 0) = true := by
          have hb' := hb; rw [Bool.and_eq_true] at hb'; exact hb'.1
        by_cases hins : in_string
        · subst hins
          rw [if_pos rfl] at hs
          refine ih (j + 1) start true ?_ s hs
          intro _
          rcases hinv rfl with ⟨h1, h2⟩
          refine ⟨by omega, ?_⟩
          intro k hk1 hk2
          rcases Nat.lt_or_ge k j with hk | hk
          · exact h2 k hk1 hk
          · have : k = j := by omega
            subst this; exact hpj
        · have hins' : in_string = false := by
            revert hins; cases in_string <;> simp
          rw [hins', if_neg (by simp)] at hs
          refine ih (j + 1) j true ?_ s hs
          intro _
          refine ⟨by omega, ?_⟩
          intro k hk1 hk2
          have : k = j := by omega
          subst this; exact hpj
      · rw [if_neg hb] at hs
        by_cases hins : in_string = true
        · rw [if_pos hins] at hs
          rcases hinv hins with ⟨hstart, hcov⟩
          by_cases hkeep : min_len ≤ j - start &&
              is_valid_string ((data.drop start).take (j - start))
          · rw [if_pos hkeep] at hs
            rcases List.mem_cons.1 hs with hs0 | hsrest
            · subst hs0
              have hkeep' := hkeep
              rw [Bool.and_eq_true] at hkeep'
              rcases hkeep' with ⟨hk1, hk2⟩
              have hlen : ((data.drop start).take (j - start)).length = j - start := by
                simp; omega
              refine ⟨?_, ?_, hk2⟩
              · rw [hlen]; exact of_decide_eq_true hk1
              · intro b hbmem
                rcases mem_drop_take data start (j - start) b hbmem with
                  ⟨k, hk1', hk2', _, hk4⟩
                rw [← hk4]
                exact hcov k hk1' (by omega)
            · exact ih (j + 1) start false (by simp) s hsrest
          · rw [if_neg hkeep] at hs
            exact ih (j + 1) start false (by simp) s hs
        · rw [if_neg hins] at hs
          exact ih (j + 1) start false (by simp) s hs
    · rw [if_neg hj] at hs
      simp at hs

/-- C7.  Every string returned by `emit_extract_strings(min_len)` has length
at least `min_len`, consists only of printable bytes `0x20..0x7E` (hence no
NUL), has at least 50% alphanumeric bytes, and is not all spaces. -/
theorem c7_extracted_strings_valid (sections : List (List Nat)) (min_len : Nat) :
    ∀ s ∈ emit_extract_strings sections min_len,
      min_len ≤ s.length ∧
      (∀ b ∈ s, 0x20 ≤ b ∧ b ≤ 0x7e ∧ b ≠ 0) ∧
      s.length ≤ 2 * alnum_count s ∧
      space_count s < s.length := by
  intro s hs
  obtain ⟨d, _, hsd⟩ := List.mem_flatMap.1 hs
  have h := extract_go_sound d min_len d.length 0 0 false (by simp) s hsd
  refine ⟨h.1, ?_, ?_, ?_⟩
  · intro b hb
    have hpb := h.2.1 b hb
    have hpb' : 0x20 ≤ b ∧ b ≤ 0x7e := by
      simpa [is_printable] using hpb
    exact ⟨hpb'.1, hpb'.2, by omega⟩
  · have hv := h.2.2
    rw [is_valid_string] at hv
    by_cases h0 : s.length == 0
    · rw [if_pos h0] at hv; simp at hv
    · rw [if_neg h0] at hv
      rw [Bool.and_eq_true] at hv
      have := of_decide_eq_true hv.1
      omega
  · have hv := h.2.2
    rw [is_valid_string] at hv
    by_cases h0 : s.length == 0
    · rw [if_pos h0] at hv; simp at hv
    · rw [if_neg h0] at hv
      rw [Bool.and_eq_true] at hv
      exact of_decide_eq_true hv.2

theorem c7_witness :
    4 ≤ ([72, 101, 108, 108, 111] : List Nat).length ∧
    (∀ b ∈ ([72, 101, 108, 108, 111] : List Nat), 0x20 ≤ b ∧ b ≤ 0x7e ∧ b ≠ 0) ∧
    ([72, 101, 108, 108, 111] : List Nat).length ≤ 2 * alnum_count [72, 101, 108, 108, 111] ∧
    space_count [72, 101, 108, 108, 111] < ([72, 101, 108, 108, 111] : List Nat).length :=
  c7_extracted_strings_valid [[72, 101, 108, 108, 111, 0]] 4
    [72, 101, 108, 108, 111] (by decide)

lemma printable_ne_zero (b : Nat) (h : is_printable b = true) : (b != 0) = true := by
  have hb : 0x20 ≤ b ∧ b ≤ 0x7e := by simpa [is_printable] using h
  simp only [bne_iff_ne, ne_eq]
  omega

/-- When every byte from position `j` on is printable, the scan loop never
flushes again and returns no string. -/
lemma extract_go_all_printable (data : List Nat) (min_len : Nat) :
    ∀ fuel j start ins,
      (∀ k, j ≤ k → k < data.length → is_printable (data.getD k 0) = true) →
      extract_go data min_len fuel j start ins = [] := by
  intro fuel
  induction fuel with
  | zero => intro j start ins _; rfl
  | succ f ih =>
    intro j start ins hall
    simp only [extract_go]
    by_cases hj : j < data.length
    · rw [if_pos hj]
      have hp := hall j (Nat.le_refl j) hj
      have hcond : (is_printable (data.getD j 0) && data.getD j 0 != 0) = true := by
        rw [Bool.and_eq_true]; exact ⟨hp, printable_ne_zero _ hp⟩
      rw [if_pos hcond]
      cases ins
      · rw [if_neg (by simp)]
        exact ih (j + 1) j true (fun k hk1 hk2 => hall k (by omega) hk2)
      · rw [if_pos rfl]
        exact ih (j + 1) start true (fun k hk1 hk2 => hall k (by omega) hk2)
    · rw [if_neg hj]

/-- A slice that stays inside the left part of an append ignores the right
part. -/
lemma take_drop_append (d r : List Nat) (s t : Nat) (h : s + t ≤ d.length) :
    ((d ++ r).drop s).take t = (d.drop s).take t := by
  rw [List.drop_append_of_le_length (by omega)]
  have ht : t ≤ (d.drop s).length := by simp; omega
  rw [List.take_append_of_le_length ht]

/-- Scanning `data ++ run` with `run` all printable behaves exactly like
scanning `data`: the appended printable bytes only extend (or open) a
trailing run, which the loop discards. -/
lemma extract_go_append (d run : List Nat) (min_len : Nat)
    (hrun : ∀ b ∈ run, is_printable b = true) :
    ∀ f, ∀ j start ins, f = d.length - j → j ≤ d.length →
      extract_go (d ++ run) min_len ((d ++ run).length - j) j start ins =
        extract_go d min_len f j start ins := by
  intro f
  induction f with
  | zero =>
    intro j start ins hf hj
    have hjn : j = d.length := by omega
    subst hjn
    have hall : ∀ k, d.length ≤ k → k < (d ++ run).length →
        is_printable ((d ++ run).getD k 0) = true := by
      intro k hk1 hk2
      rw [List.getD_append_right _ _ _ _ hk1]
      have hkr : k - d.length < run.length := by
        simp at hk2; omega
      rw [List.getD_eq_getElem run 0 hkr]
      exact hrun _ (List.getElem_mem hkr)
    rw [extract_go_all_printable (d ++ run) min_len _ d.length start ins hall]
    rfl
  | succ f ih =>
    intro j start ins hf hj
    have hjn : j < d.length := by omega
    obtain ⟨L, hL1, hL2⟩ : ∃ L, (d ++ run).length - j = L + 1 ∧
        L = (d ++ run).length - (j + 1) := by
      refine ⟨(d ++ run).length - (j + 1), ?_, rfl⟩
      simp; omega
    rw [hL1]
    simp only [extract_go]
    have hjm : j < (d ++ run).length := by simp; omega
    rw [if_pos hjm, if_pos hjn]
    have hbyte : (d ++ run).getD j 0 = d.getD j 0 := List.getD_append _ _ _ _ hjn
    rw [hbyte]
    have hrec : extract_go (d ++ run) min_len L (j + 1) start false =
        extract_go d min_len f (j + 1) start false := by
      rw [hL2]; exact ih (j + 1) start false (by omega) (by omega)
    have hrecT : ∀ st, extract_go (d ++ run) min_len L (j + 1) st true =
        extract_go d min_len f (j + 1) st true := by
      intro st; rw [hL2]; exact ih (j + 1) st true (by omega) (by omega)
    by_cases hb : is_printable (d.getD j 0) && d.getD j 0 != 0
    · rw [if_pos hb, if_pos hb]
      cases ins
      · rw [if_neg (by simp), if_neg (by simp)]
        exact hrecT j
      · rw [if_pos rfl, if_pos rfl]
        exact hrecT start
    · rw [if_neg hb, if_neg hb]
      have hslice : ((d ++ run).drop start).take (j - start) =
          (d.drop start).take (j - start) := by
        by_cases hs : start ≤ j
        · exact take_drop_append d run start (j - start) (by omega)
        · have h0 : j - start = 0 := by omega
          rw [h0]; simp
      rw [hslice, hrec]

/-- C10.  A maximal printable run that reaches the very last byte of a
scanned section is never returned: appending printable bytes to any section
leaves the scan result unchanged, and a section that is one single printable
run yields nothing even when the run meets the length and validity
criteria (here `"abcd"` with `min_len = 4`). -/
theorem c10_trailing_run_dropped :
    (∀ (data run : List Nat) (min_len : Nat), (∀ b ∈ run, is_printable b = true) →
      emit_extract_strings_scan (data ++ run) min_len =
        emit_extract_strings_scan data min_len) ∧
    (emit_extract_strings_scan [97, 98, 99, 100] 4 = [] ∧
      4 ≤ ([97, 98, 99, 100] : List Nat).length ∧
      is_valid_string [97, 98, 99, 100] = true) := by
  constructor
  · intro data run min_len hrun
    unfold emit_extract_strings_scan
    have := extract_go_append data run min_len hrun data.length 0 0 false
      (by omega) (Nat.zero_le _)
    simpa using this
  · exact ⟨by decide, by decide, by decide⟩

theorem c10_witness :
    emit_extract_strings_scan ([0] ++ [97, 98, 99, 100]) 4 =
      emit_extract_strings_scan [0] 4 :=
  c10_trailing_run_dropped.1 [0] [97, 98, 99, 100] 4 (by decide)

/-! ## Symbol extraction (emit.c)

The per-section body of `emit_extract_symbols`, after the section bytes have
been read from the file: `sym_data` are the symbol-table bytes, `str_data`
the bytes of the string table resolved through `sh_link`.  Multi-byte fields
are read little-endian, as the packed structs on the source's target. -/

def readU8 (l : List Nat) (off : Nat) : Nat := l.getD off 0

def readU16 (l : List Nat) (off : Nat) : Nat :=
  readU8 l off + 256 * readU8 l (off + 1)

def readU32 (l : List Nat) (off : Nat) : Nat :=
  readU16 l off + 65536 * readU16 l (off + 2)

def readU64 (l : List Nat) (off : Nat) : Nat :=
  readU32 l off + 4294967296 * readU32 l (off + 4)

structure elf_symbol_t where
  name : List Nat
  value : Nat
  size : Nat
  info : Nat
  other : Nat
  shndx : Nat
  bind : Nat
  type : Nat
deriving DecidableEq, Repr

/-- `is_valid_strtab_off`: the offset lies inside the table and a NUL
terminator follows it (the `memchr` of the source). -/
def is_valid_strtab_off (strtab : List Nat) (off : Nat) : Bool :=
  if strtab.length == 0 then false
  else if strtab.length ≤ off then false
  else (strtab.drop off).any (fun b => b == 0)

/-- `strnlen(s, maxlen)`: bytes before the first NUL, capped at `maxlen`. -/
def strnlen (l : List Nat) (maxlen : Nat) : Nat :=
  ((l.take maxlen).takeWhile (fun b => b != 0)).length

/-- The ELF32 entry loop of `emit_extract_symbols` (entry `i`, `rem` entries
remaining).  Field offsets follow `elf32_sym_t`: name u32@0, value u32@4,
size u32@8, info u8@12, other u8@13, shndx u16@14. -/
def sym_loop32 (sym_data str_data : List Nat) (ent : Nat) : Nat → Nat → List elf_symbol_t
  | _, 0 => []
  | i, rem + 1 =>
    let base := i * ent
    let nameOff := readU32 sym_data base
    let rest := sym_loop32 sym_data str_data ent (i + 1) rem
    if nameOff == 0 then rest
    else if !is_valid_strtab_off str_data nameOff then rest
    else if readU8 str_data nameOff == 0 then rest
    else
      { name := (str_data.drop nameOff).take
          (strnlen (str_data.drop nameOff) (str_data.length - nameOff)),
        value := readU32 sym_data (base + 4),
        size := readU32 sym_data (base + 8),
        info := readU8 sym_data (base + 12),
        other := readU8 sym_data (base + 13),
        shndx := readU16 sym_data (base + 14),
        bind := readU8 sym_data (base + 12) >>> 4,
        type := readU8 sym_data (base + 12) &&& 0xF } :: rest

/-- The ELF64 entry loop.  Field offsets follow `elf64_sym_t`: name u32@0,
info u8@4, other u8@5, shndx u16@6, value u64@8, size u64@16. -/
def sym_loop64 (sym_data str_data : List Nat) (ent : Nat) : Nat → Nat → List elf_symbol_t
  | _, 0 => []
  | i, rem + 1 =>
    let base := i * ent
    let nameOff := readU32 sym_data base
    let rest := sym_loop64 sym_data str_data ent (i + 1) rem
    if nameOff == 0 then rest
    else if !is_valid_strtab_off str_data nameOff then rest
    else if readU8 str_data nameOff == 0 then rest
    else
      { name := (str_data.drop nameOff).take
          (strnlen (str_data.drop nameOff) (str_data.length - nameOff)),
        value := readU64 sym_data (base + 8),
        size := readU64 sym_data (base + 16),
        info := readU8 sym_data (base + 4),
        other := readU8 sym_data (base + 5),
        shndx := readU16 sym_data (base + 6),
        bind := readU8 sym_data (base + 4) >>> 4,
        type := readU8 sym_data (base + 4) &&& 0xF } :: rest

/-- The per-section body of `emit_extract_symbols` (cls is the ELF class
byte, 1 = ELF32, 2 = ELF64): entry size defaults to the native record size
when `entsize` is zero, and `size / entsize` entries are processed. -/
def emit_extract_symbols_section (cls : Nat) (sym_data str_data : List Nat)
    (entsize : Nat) : List elf_symbol_t :=
  if cls == 1 then
    let ent := if entsize != 0 then entsize else 16
    sym_loop32 sym_data str_data ent 0 (sym_data.length / ent)
  else if cls == 2 then
    let ent := if entsize != 0 then entsize else 24
    sym_loop64 sym_data str_data ent 0 (sym_data.length / ent)
  else []

/-- The claim's per-entry rule for ELF32, written from the claim text (plus
the amendment): skip when the name offset is 0; reject when the offset does
not lie within the string table or no NUL terminator exists within the
remaining bytes; (amended) skip when the name resolves to the empty string;
otherwise emit a record whose name is the strnlen-bounded copy, with
`bind = info >> 4`, `type = info & 0xF`, and value/size as stored. -/
def claim_sym_entry32 (sym_data str_data : List Nat) (ent i : Nat) : Option elf_symbol_t :=
  let base := i * ent
  let off := readU32 sym_data base
  if off = 0 then none
  else if ¬(off < str_data.length ∧
      ∃ k, k < str_data.length ∧ (off ≤ k ∧ str_data.getD k 0 = 0)) then none
  else if str_data.getD off 0 = 0 then none
  else some
    { name := (str_data.drop off).take (strnlen (str_data.drop off) (str_data.length - off)),
      value := readU32 sym_data (base + 4),
      size := readU32 sym_data (base + 8),
      info := readU8 sym_data (base + 12),
      other := readU8 sym_data (base + 13),
      shndx := readU16 sym_data (base + 14),
      bind := readU8 sym_data (base + 12) >>> 4,
      type := readU8 sym_data (base + 12) &&& 0xF }

/-- The claim's per-entry rule for ELF64 (see `claim_sym_entry32`). -/
def claim_sym_entry64 (sym_data str_data : List Nat) (ent i : Nat) : Option elf_symbol_t :=
  let base := i * ent
  let off := readU32 sym_data base
  if off = 0 then none
  else if ¬(off < str_data.length ∧
      ∃ k, k < str_data.length ∧ (off ≤ k ∧ str_data.getD k 0 = 0)) then none
  else if str_data.getD off 0 = 0 then none
  else some
    { name := (str_data.drop off).take (strnlen (str_data.drop off) (str_data.length - off)),
      value := readU64 sym_data (base + 8),
      size := readU64 sym_data (base + 16),
      info := readU8 sym_data (base + 4),
      other := readU8 sym_data (base + 5),
      shndx := readU16 sym_data (base + 6),
      bind := readU8 sym_data (base + 4) >>> 4,
      type := readU8 sym_data (base + 4) &&& 0xF }

/-- The source's `memchr`-based validity check coincides with the claim's
"offset within the table and a NUL within the remaining bytes". -/
lemma is_valid_strtab_off_iff (strtab : List Nat) (off : Nat) :
    is_valid_strtab_off strtab off = true ↔
      off < strtab.length ∧
        ∃ k, k < strtab.length ∧ (off ≤ k ∧ strtab.getD k 0 = 0) := by
  unfold is_valid_strtab_off
  by_cases h0 : strtab.length == 0
  · have h0n : strtab.length = 0 := by simpa using h0
    rw [if_pos h0]
    simp [h0n]
  · rw [if_neg h0]
    by_cases hle : strtab.length ≤ off
    · rw [if_pos hle]
      simp only [Bool.false_eq_true, false_iff]
      rintro ⟨h1, -⟩
      omega
    · rw [if_neg hle]
      rw [List.any_eq_true]
      constructor
      · rintro ⟨b, hbmem, hb0⟩
        have hb0n : b = 0 := by simpa using hb0
        obtain ⟨idx, hidx, hgot⟩ := List.getElem_of_mem hbmem
        have hlen : (strtab.drop off).length = strtab.length - off := by simp
        rw [List.getElem_drop] at hgot
        refine ⟨by omega, off + idx, by omega, by omega, ?_⟩
        rw [List.getD_eq_getElem strtab 0 (by omega)]
        rw [hgot, hb0n]
      · rintro ⟨hoff, k, hk1, hk2, hk3⟩
        have hklt : k - off < (strtab.drop off).length := by simp; omega
        have hval : (strtab.drop off).getD (k - off) 0 = 0 := by
          rw [List.getD_eq_getElem _ 0 hklt, List.getElem_drop]
          have he : off + (k - off) = k := by omega
          simp only [he]
          rw [List.getD_eq_getElem strtab 0 hk1] at hk3
          exact hk3
        refine ⟨0, ?_, by simp⟩
        have hmem : (strtab.drop off).getD (k - off) 0 ∈ strtab.drop off := by
          rw [List.getD_eq_getElem _ 0 hklt]
          exact List.getElem_mem hklt
        exact hval ▸ hmem

lemma sym_loop32_filterMap (sym_data str_data : List Nat) (ent : Nat) :
    ∀ rem i, sym_loop32 sym_data str_data ent i rem =
      (List.range' i rem).filterMap (claim_sym_entry32 sym_data str_data ent) := by
  intro rem
  induction rem with
  | zero => intro i; simp [sym_loop32]
  | succ r ih =>
    intro i
    rw [List.range'_succ, List.filterMap_cons]
    simp only [sym_loop32]
    by_cases hoff : readU32 sym_data (i * ent) = 0
    · have hspec : claim_sym_entry32 sym_data str_data ent i = none := by
        unfold claim_sym_entry32; rw [if_pos hoff]
      rw [hspec, if_pos (by simpa using hoff)]
      exact ih (i + 1)
    · by_cases hval : readU32 sym_data (i * ent) < str_data.length ∧
          ∃ k, k < str_data.length ∧
            (readU32 sym_data (i * ent) ≤ k ∧ str_data.getD k 0 = 0)
      · have hvb : is_valid_strtab_off str_data (readU32 sym_data (i * ent)) = true :=
          (is_valid_strtab_off_iff _ _).2 hval
        by_cases hhead : str_data.getD (readU32 sym_data (i * ent)) 0 = 0
        · have hspec : claim_sym_entry32 sym_data str_data ent i = none := by
            unfold claim_sym_entry32
            rw [if_neg hoff, if_neg (by simpa using hval), if_pos hhead]
          rw [hspec, if_neg (by simpa using hoff), if_neg (by simp [hvb]),
            if_pos (by simpa [readU8] using hhead)]
          exact ih (i + 1)
        · have hspec : claim_sym_entry32 sym_data str_data ent i = some
              { name := (str_data.drop (readU32 sym_data (i * ent))).take
                  (strnlen (str_data.drop (readU32 sym_data (i * ent)))
                    (str_data.length - readU32 sym_data (i * ent))),
                value := readU32 sym_data (i * ent + 4),
                size := readU32 sym_data (i * ent + 8),
                info := readU8 sym_data (i * ent + 12),
                other := readU8 sym_data (i * ent + 13),
                shndx := readU16 sym_data (i * ent + 14),
                bind := readU8 sym_data (i * ent + 12) >>> 4,
                type := readU8 sym_data (i * ent + 12) &&& 0xF } := by
            unfold claim_sym_entry32
            rw [if_neg hoff, if_neg (by simpa using hval), if_neg hhead]
          rw [hspec, if_neg (by simpa using hoff), if_neg (by simp [hvb]),
            if_neg (by simpa [readU8] using hhead)]
          rw [ih (i + 1)]
      · have hvb : is_valid_strtab_off str_data (readU32 sym_data (i * ent)) = false := by
          rw [← Bool.not_eq_true, is_valid_strtab_off_iff]
          exact hval
        have hspec : claim_sym_entry32 sym_data str_data ent i = none := by
          unfold claim_sym_entry32
          rw [if_neg hoff, if_pos (by simpa using hval)]
        rw [hspec, if_neg (by simpa using hoff), if_pos (by simp [hvb])]
        exact ih (i + 1)

lemma sym_loop64_filterMap (sym_data str_data : List Nat) (ent : Nat) :
    ∀ rem i, sym_loop64 sym_data str_data ent i rem =
      (List.range' i rem).filterMap (claim_sym_entry64 sym_data str_data ent) := by
  intro rem
  induction rem with
  | zero => intro i; simp [sym_loop64]
  | succ r ih =>
    intro i
    rw [List.range'_succ, List.filterMap_cons]
    simp only [sym_loop64]
    by_cases hoff : readU32 sym_data (i * ent) = 0
    · have hspec : claim_sym_entry64 sym_data str_data ent i = none := by
        unfold claim_sym_entry64; rw [if_pos hoff]
      rw [hspec, if_pos (by simpa using hoff)]
      exact ih (i + 1)
    · by_cases hval : readU32 sym_data (i * ent) < str_data.length ∧
          ∃ k, k < str_data.length ∧
            (readU32 sym_data (i * ent) ≤ k ∧ str_data.getD k 0 = 0)
      · have hvb : is_valid_strtab_off str_data (readU32 sym_data (i * ent)) = true :=
          (is_valid_strtab_off_iff _ _).2 hval
        by_cases hhead : str_data.getD (readU32 sym_data (i * ent)) 0 = 0
        · have hspec : claim_sym_entry64 sym_data str_data ent i = none := by
            unfold claim_sym_entry64
            rw [if_neg hoff, if_neg (by simpa using hval), if_pos hhead]
          rw [hspec, if_neg (by simpa using hoff), if_neg (by simp [hvb]),
            if_pos (by simpa [readU8] using hhead)]
          exact ih (i + 1)
        · have hspec : claim_sym_entry64 sym_data str_data ent i = some
              { name := (str_data.drop (readU32 sym_data (i * ent))).take
                  (strnlen (str_data.drop (readU32 sym_data (i * ent)))
                    (str_data.length - readU32 sym_data (i * ent))),
                value := readU64 sym_data (i * ent + 8),
                size := readU64 sym_data (i * ent + 16),
                info := readU8 sym_data (i * ent + 4),
                other := readU8 sym_data (i * ent + 5),
                shndx := readU16 sym_data (i * ent + 6),
                bind := readU8 sym_data (i * ent + 4) >>> 4,
                type := readU8 sym_data (i * ent + 4) &&& 0xF } := by
            unfold claim_sym_entry64
            rw [if_neg hoff, if_neg (by simpa using hval), if_neg hhead]
          rw [hspec, if_neg (by simpa using hoff), if_neg (by simp [hvb]),
            if_neg (by simpa [readU8] using hhead)]
          rw [ih (i + 1)]
      · have hvb : is_valid_strtab_off str_data (readU32 sym_data (i * ent)) = false := by
          rw [← Bool.not_eq_true, is_valid_strtab_off_iff]
          exact hval
        have hspec : claim_sym_entry64 sym_data str_data ent i = none := by
          unfold claim_sym_entry64
          rw [if_neg hoff, if_pos (by simpa using hval)]
        rw [hspec, if_neg (by simpa using hoff), if_pos (by simp [hvb])]
        exact ih (i + 1)

/-- One ELF64 symbol-table entry whose name offset is 1. -/
def c6_sym_data : List Nat := [1, 0, 0, 0] ++ List.replicate 20 0

/-- A string table in which offset 1 is a valid, NUL-terminated, empty name. -/
def c6_str_data : List Nat := [65, 0]

/-- C6 counterexample.  The entry's name offset is non-zero, lies within the
string table and is NUL-terminated there, so by the claim a record must be
emitted - but the source additionally skips entries whose name is the empty
string (`if (!sym_name || !*sym_name) continue;`), and emits nothing. -/
theorem c6_empty_name_entry_not_emitted :
    readU32 c6_sym_data 0 ≠ 0 ∧
    is_valid_strtab_off c6_str_data (readU32 c6_sym_data 0) = true ∧
    emit_extract_symbols_section 2 c6_sym_data c6_str_data 24 = [] := by
  refine ⟨by decide, by decide, by decide⟩

/-- C6 amended.  For both classes, `emit_extract_symbols` on one symbol-table
section equals the claim's per-entry rule mapped over the `size / entsize`
entries, amended in exactly one point: an entry whose (valid, NUL-terminated)
name offset resolves to the empty string is also skipped. -/
theorem c6_symbols_refinement (sym_data str_data : List Nat) (entsize : Nat) :
    emit_extract_symbols_section 1 sym_data str_data entsize =
      (List.range (sym_data.length / (if entsize != 0 then entsize else 16))).filterMap
        (claim_sym_entry32 sym_data str_data (if entsize != 0 then entsize else 16)) ∧
    emit_extract_symbols_section 2 sym_data str_data entsize =
      (List.range (sym_data.length / (if entsize != 0 then entsize else 24))).filterMap
        (claim_sym_entry64 sym_data str_data (if entsize != 0 then entsize else 24)) := by
  constructor
  · show sym_loop32 sym_data str_data (if entsize != 0 then entsize else 16) 0
        (sym_data.length / (if entsize != 0 then entsize else 16)) = _
    rw [sym_loop32_filterMap, List.range_eq_range']
  · show sym_loop64 sym_data str_data (if entsize != 0 then entsize else 24) 0
        (sym_data.length / (if entsize != 0 then entsize else 24)) = _
    rw [sym_loop64_filterMap, List.range_eq_range']

/-! ## ELF container parsing (elfx.c)

`elf_parse` reads the whole file into a buffer; the two class parsers widen
the fixed little-endian layouts into the shared model.  The table guards
compute `offset + count * element_size` in 64-bit machine arithmetic, made
explicit here as `% 2 ^ 64`. -/

structure elf_phdr_t where
  type : Nat
  flags : Nat
  offset : Nat
  vaddr : Nat
  paddr : Nat
  filesz : Nat
  memsz : Nat
  align : Nat
deriving DecidableEq, Repr

structure elf_shdr_t where
  name : Nat
  type : Nat
  flags : Nat
  addr : Nat
  offset : Nat
  size : Nat
  link : Nat
  info : Nat
  addralign : Nat
  entsize : Nat
deriving DecidableEq, Repr

/-- `elf_t`; the source field `class` is spelled `cls` (Lean keyword). -/
structure elf_t where
  cls : Nat
  data : Nat
  type : Nat
  machine : Nat
  entry : Nat
  phoff : Nat
  shoff : Nat
  phnum : Nat
  shnum : Nat
  shstrndx : Nat
  phdrs : List elf_phdr_t
  shdrs : List elf_shdr_t
  shstrtab : Option (List Nat)
deriving DecidableEq, Repr

/-- One `elf32_phdr_t` at table base `phoff`, entry `i` (32 bytes each). -/
def parse_phdr32 (buffer : List Nat) (phoff i : Nat) : elf_phdr_t :=
  let base := phoff + i * 32
  { type := readU32 buffer base,
    flags := readU32 buffer (base + 24),
    offset := readU32 buffer (base + 4),
    vaddr := readU32 buffer (base + 8),
    paddr := readU32 buffer (base + 12),
    filesz := readU32 buffer (base + 16),
    memsz := readU32 buffer (base + 20),
    align := readU32 buffer (base + 28) }

/-- One `elf32_shdr_t` at table base `shoff`, entry `i` (40 bytes each). -/
def parse_shdr32 (buffer : List Nat) (shoff i : Nat) : elf_shdr_t :=
  let base := shoff + i * 40
  { name := readU32 buffer base,
    type := readU32 buffer (base + 4),
    flags := readU32 buffer (base + 8),
    addr := readU32 buffer (base + 12),
    offset := readU32 buffer (base + 16),
    size := readU32 buffer (base + 20),
    link := readU32 buffer (base + 24),
    info := readU32 buffer (base + 28),
    addralign := readU32 buffer (base + 32),
    entsize := readU32 buffer (base + 36) }

/-- One `elf64_phdr_t` at table base `phoff`, entry `i` (56 bytes each). -/
def parse_phdr64 (buffer : List Nat) (phoff i : Nat) : elf_phdr_t :=
  let base := phoff + i * 56
  { type := readU32 buffer base,
    flags := readU32 buffer (base + 4),
    offset := readU64 buffer (base + 8),
    vaddr := readU64 buffer (base + 16),
    paddr := readU64 buffer (base + 24),
    filesz := readU64 buffer (base + 32),
    memsz := readU64 buffer (base + 40),
    align := readU64 buffer (base + 48) }

/-- One `elf64_shdr_t` at table base `shoff`, entry `i` (64 bytes each). -/
def parse_shdr64 (buffer : List Nat) (shoff i : Nat) : elf_shdr_t :=
  let base := shoff + i * 64
  { name := readU32 buffer base,
    type := readU32 buffer (base + 4),
    flags := readU64 buffer (base + 8),
    addr := readU64 buffer (base + 16),
    offset := readU64 buffer (base + 24),
    size := readU64 buffer (base + 32),
    link := readU32 buffer (base + 40),
    info := readU32 buffer (base + 44),
    addralign := readU64 buffer (base + 48),
    entsize := readU64 buffer (base + 56) }

/-- `elf_parse32`: header fields at their `elf32_ehdr_t` offsets; each table
is parsed only under its guard, and the section-header string table is
copied when `shstrndx` is in range and its slice fits the buffer. -/
def elf_parse32 (buffer : List Nat) : Option elf_t :=
  if buffer.length < 52 then none
  else
    let phoff := readU32 buffer 28
    let shoff := readU32 buffer 32
    let phnum := readU16 buffer 44
    let shnum := readU16 buffer 48
    let shstrndx := readU16 buffer 50
    let shguard := 0 < shnum ∧ (shoff + shnum * 40) % 2 ^ 64 ≤ buffer.length
    some
      { cls := 1, data := readU8 buffer 5, type := readU16 buffer 16,
        machine := readU16 buffer 18, entry := readU32 buffer 24,
        phoff := phoff, shoff := shoff, phnum := phnum, shnum := shnum,
        shstrndx := shstrndx,
        phdrs :=
          if 0 < phnum ∧ (phoff + phnum * 32) % 2 ^ 64 ≤ buffer.length then
            (List.range phnum).map (parse_phdr32 buffer phoff)
          else [],
        shdrs :=
          if shguard then (List.range shnum).map (parse_shdr32 buffer shoff) else [],
        shstrtab :=
          if shguard ∧ shstrndx < shnum then
            let sh := parse_shdr32 buffer shoff shstrndx
            if (sh.offset + sh.size) % 2 ^ 64 ≤ buffer.length then
              some ((buffer.drop sh.offset).take sh.size)
            else none
          else none }

/-- `elf_parse64`: as `elf_parse32` with the `elf64_ehdr_t` layout. -/
def elf_parse64 (buffer : List Nat) : Option elf_t :=
  if buffer.length < 64 then none
  else
    let phoff := readU64 buffer 32
    let shoff := readU64 buffer 40
    let phnum := readU16 buffer 56
    let shnum := readU16 buffer 60
    let shstrndx := readU16 buffer 62
    let shguard := 0 < shnum ∧ (shoff + shnum * 64) % 2 ^ 64 ≤ buffer.length
    some
      { cls := 2, data := readU8 buffer 5, type := readU16 buffer 16,
        machine := readU16 buffer 18, entry := readU64 buffer 24,
        phoff := phoff, shoff := shoff, phnum := phnum, shnum := shnum,
        shstrndx := shstrndx,
        phdrs :=
          if 0 < phnum ∧ (phoff + phnum * 56) % 2 ^ 64 ≤ buffer.length then
            (List.range phnum).map (parse_phdr64 buffer phoff)
          else [],
        shdrs :=
          if shguard then (List.range shnum).map (parse_shdr64 buffer shoff) else [],
        shstrtab :=
          if shguard ∧ shstrndx < shnum then
            let sh := parse_shdr64 buffer shoff shstrndx
            if (sh.offset + sh.size) % 2 ^ 64 ≤ buffer.length then
              some ((buffer.drop sh.offset).take sh.size)
            else none
          else none }

/-- `elf_valid_ident`: the magic bytes `7F 'E' 'L' 'F'`. -/
def elf_valid_ident (buffer : List Nat) : Bool :=
  readU8 buffer 0 == 0x7f && readU8 buffer 1 == 69 &&
    readU8 buffer 2 == 76 && readU8 buffer 3 == 70

/-- `elf_parse` on the already-read file buffer: validate the identifier and
dispatch on the `EI_CLASS` byte. -/
def elf_parse (buffer : List Nat) : Option elf_t :=
  if buffer.length < 16 then none
  else if !elf_valid_ident buffer then none
  else if readU8 buffer 4 == 1 then elf_parse32 buffer
  else if readU8 buffer 4 == 2 then elf_parse64 buffer
  else none

lemma getD_lt_256 (l : List Nat) (hb : ∀ b ∈ l, b < 256) (i : Nat) :
    l.getD i 0 < 256 := by
  by_cases h : i < l.length
  · rw [List.getD_eq_getElem l 0 h]
    exact hb _ (List.getElem_mem h)
  · rw [List.getD_eq_default l 0 (by omega)]
    omega

lemma readU16_lt (l : List Nat) (hb : ∀ b ∈ l, b < 256) (off : Nat) :
    readU16 l off < 2 ^ 16 := by
  unfold readU16 readU8
  have h1 := getD_lt_256 l hb off
  have h2 := getD_lt_256 l hb (off + 1)
  omega

lemma readU32_lt (l : List Nat) (hb : ∀ b ∈ l, b < 256) (off : Nat) :
    readU32 l off < 2 ^ 32 := by
  unfold readU32
  have h1 := readU16_lt l hb off
  have h2 := readU16_lt l hb (off + 2)
  omega

/-- C5 amended.  The table guards are 64-bit machine comparisons.  For
ELF32 the operands are small (offsets are 32-bit, counts 16-bit), so no wrap
can occur and the claim's exact bound holds: a non-empty table implies the
exact bound, every element read stays inside the buffer, and a violated
bound forces an empty table.  For ELF64 the guard is the claimed bound only
modulo `2 ^ 64`: a non-empty table implies the wrapped bound, and the exact
claim holds only on inputs where `offset + count * size` does not wrap. -/
theorem c5_header_table_bounds (buffer : List Nat) (hb : ∀ b ∈ buffer, b < 256) :
    ((elf_parse32 buffer).elim True fun e =>
      (e.phdrs ≠ [] → 0 < e.phnum ∧ e.phoff + e.phnum * 32 ≤ buffer.length ∧
        ∀ i < e.phnum, e.phoff + i * 32 + 32 ≤ buffer.length) ∧
      (buffer.length < e.phoff + e.phnum * 32 → e.phdrs = []) ∧
      (e.shdrs ≠ [] → 0 < e.shnum ∧ e.shoff + e.shnum * 40 ≤ buffer.length ∧
        ∀ i < e.shnum, e.shoff + i * 40 + 40 ≤ buffer.length) ∧
      (buffer.length < e.shoff + e.shnum * 40 → e.shdrs = [])) ∧
    ((elf_parse64 buffer).elim True fun e =>
      (e.phdrs ≠ [] → 0 < e.phnum ∧ (e.phoff + e.phnum * 56) % 2 ^ 64 ≤ buffer.length) ∧
      (e.phoff + e.phnum * 56 < 2 ^ 64 → buffer.length < e.phoff + e.phnum * 56 →
        e.phdrs = []) ∧
      (e.shdrs ≠ [] → 0 < e.shnum ∧ (e.shoff + e.shnum * 64) % 2 ^ 64 ≤ buffer.length) ∧
      (e.shoff + e.shnum * 64 < 2 ^ 64 → buffer.length < e.shoff + e.shnum * 64 →
        e.shdrs = [])) := by
  constructor
  · by_cases h52 : buffer.length < 52
    · unfold elf_parse32
      rw [if_pos h52]
      exact trivial
    · unfold elf_parse32
      rw [if_neg h52]
      simp only [Option.elim]
      have hphoff := readU32_lt buffer hb 28
      have hphnum := readU16_lt buffer hb 44
      have hshoff := readU32_lt buffer hb 32
      have hshnum := readU16_lt buffer hb 48
      have hpow : (2 : Nat) ^ 32 = 4294967296 ∧ (2 : Nat) ^ 16 = 65536 ∧
          (2 : Nat) ^ 64 = 18446744073709551616 := by norm_num
      have hmodp : (readU32 buffer 28 + readU16 buffer 44 * 32) % 2 ^ 64 =
          readU32 buffer 28 + readU16 buffer 44 * 32 :=
        Nat.mod_eq_of_lt (by omega)
      have hmods : (readU32 buffer 32 + readU16 buffer 48 * 40) % 2 ^ 64 =
          readU32 buffer 32 + readU16 buffer 48 * 40 :=
        Nat.mod_eq_of_lt (by omega)
      refine ⟨?_, ?_, ?_, ?_⟩
      · intro hne
        by_cases hg : 0 < readU16 buffer 44 ∧
            (readU32 buffer 28 + readU16 buffer 44 * 32) % 2 ^ 64 ≤ buffer.length
        · rcases hg with ⟨hg1, hg2⟩
          rw [hmodp] at hg2
          exact ⟨hg1, hg2, fun i hi => by omega⟩
        · rw [if_neg hg] at hne
          exact absurd rfl hne
      · intro hlt
        by_cases hg : 0 < readU16 buffer 44 ∧
            (readU32 buffer 28 + readU16 buffer 44 * 32) % 2 ^ 64 ≤ buffer.length
        · exfalso
          have hg2 := hg.2
          rw [hmodp] at hg2
          omega
        · rw [if_neg hg]
      · intro hne
        by_cases hg : 0 < readU16 buffer 48 ∧
            (readU32 buffer 32 + readU16 buffer 48 * 40) % 2 ^ 64 ≤ buffer.length
        · rcases hg with ⟨hg1, hg2⟩
          rw [hmods] at hg2
          exact ⟨hg1, hg2, fun i hi => by omega⟩
        · rw [if_neg hg] at hne
          exact absurd rfl hne
      · intro hlt
        by_cases hg : 0 < readU16 buffer 48 ∧
            (readU32 buffer 32 + readU16 buffer 48 * 40) % 2 ^ 64 ≤ buffer.length
        · exfalso
          have hg2 := hg.2
          rw [hmods] at hg2
          omega
        · rw [if_neg hg]
  · by_cases h64 : buffer.length < 64
    · unfold elf_parse64
      rw [if_pos h64]
      exact trivial
    · unfold elf_parse64
      rw [if_neg h64]
      simp only [Option.elim]
      refine ⟨?_, ?_, ?_, ?_⟩
      · intro hne
        by_cases hg : 0 < readU16 buffer 56 ∧
            (readU64 buffer 32 + readU16 buffer 56 * 56) % 2 ^ 64 ≤ buffer.length
        · exact ⟨hg.1, hg.2⟩
        · rw [if_neg hg] at hne
          exact absurd rfl hne
      · intro hnowrap hlt
        by_cases hg : 0 < readU16 buffer 56 ∧
            (readU64 buffer 32 + readU16 buffer 56 * 56) % 2 ^ 64 ≤ buffer.length
        · exfalso
          have hg2 := hg.2
          rw [Nat.mod_eq_of_lt hnowrap] at hg2
          omega
        · rw [if_neg hg]
      · intro hne
        by_cases hg : 0 < readU16 buffer 60 ∧
            (readU64 buffer 40 + readU16 buffer 60 * 64) % 2 ^ 64 ≤ buffer.length
        · exact ⟨hg.1, hg.2⟩
        · rw [if_neg hg] at hne
          exact absurd rfl hne
      · intro hnowrap hlt
        by_cases hg : 0 < readU16 buffer 60 ∧
            (readU64 buffer 40 + readU16 buffer 60 * 64) % 2 ^ 64 ≤ buffer.length
        · exfalso
          have hg2 := hg.2
          rw [Nat.mod_eq_of_lt hnowrap] at hg2
          omega
        · rw [if_neg hg]

/-- A 64-byte ELF64 file whose `e_phoff` is `2 ^ 64 - 56` and `e_phnum` is 1:
the guard's 64-bit sum wraps to 0. -/
def c5_wrap_buffer : List Nat :=
  [0x7f, 69, 76, 70, 2, 1, 0, 0, 0, 0, 0, 0, 0, 0, 0, 0] ++
  [2, 0] ++ [62, 0] ++ [1, 0, 0, 0] ++
  List.replicate 8 0 ++
  [0xC8, 0xFF, 0xFF, 0xFF, 0xFF, 0xFF, 0xFF, 0xFF] ++
  List.replicate 8 0 ++
  [0, 0, 0, 0] ++ [64, 0] ++ [56, 0] ++ [1, 0] ++ [64, 0] ++ [0, 0] ++ [0, 0]

/-- C5 counterexample.  On `c5_wrap_buffer` the exact bound
`phoff + phnum * 56 = 2 ^ 64 > 64` does not hold, yet `elf_parse64` parses a
non-empty program-header table because the guard computes the sum modulo
`2 ^ 64` (it wraps to 0); the corresponding C code then reads header bytes
far outside the 64-byte file buffer. -/
theorem c5_wrapped_offset_parses_nonempty_table :
    c5_wrap_buffer.length = 64 ∧
    (elf_parse64 c5_wrap_buffer).map elf_t.phoff = some (2 ^ 64 - 56) ∧
    (elf_parse64 c5_wrap_buffer).map elf_t.phnum = some 1 ∧
    (elf_parse64 c5_wrap_buffer).map (fun e => e.phdrs.length) = some 1 ∧
    64 < 2 ^ 64 - 56 + 1 * 56 := by
  refine ⟨by decide, by decide, by decide, by decide, by decide⟩

theorem c5_witness :
    ((elf_parse32 c5_wrap_buffer).elim True fun e =>
      (e.phdrs ≠ [] → 0 < e.phnum ∧ e.phoff + e.phnum * 32 ≤ c5_wrap_buffer.length ∧
        ∀ i < e.phnum, e.phoff + i * 32 + 32 ≤ c5_wrap_buffer.length) ∧
      (c5_wrap_buffer.length < e.phoff + e.phnum * 32 → e.phdrs = []) ∧
      (e.shdrs ≠ [] → 0 < e.shnum ∧ e.shoff + e.shnum * 40 ≤ c5_wrap_buffer.length ∧
        ∀ i < e.shnum, e.shoff + i * 40 + 40 ≤ c5_wrap_buffer.length) ∧
      (c5_wrap_buffer.length < e.shoff + e.shnum * 40 → e.shdrs = [])) ∧
    ((elf_parse64 c5_wrap_buffer).elim True fun e =>
      (e.phdrs ≠ [] → 0 < e.phnum ∧
        (e.phoff + e.phnum * 56) % 2 ^ 64 ≤ c5_wrap_buffer.length) ∧
      (e.phoff + e.phnum * 56 < 2 ^ 64 → c5_wrap_buffer.length < e.phoff + e.phnum * 56 →
        e.phdrs = []) ∧
      (e.shdrs ≠ [] → 0 < e.shnum ∧
        (e.shoff + e.shnum * 64) % 2 ^ 64 ≤ c5_wrap_buffer.length) ∧
      (e.shoff + e.shnum * 64 < 2 ^ 64 → c5_wrap_buffer.length < e.shoff + e.shnum * 64 →
        e.shdrs = [])) :=
  c5_header_table_bounds c5_wrap_buffer (by decide)

/-! ## Command handling (ux.c)

The enter-key branch of `ux_handle_key`.  Only the `address` field of
`ux_insn_t` is consulted by the verified claims; the model's sequences are
kept abstract at the element level where their contents never matter.
The open-success body (lines 252-316: release old data, `emit_load` /
`emit_scan_text` / `emit_all`, extract strings and symbols, update subtitle)
performs file and pool I/O and is a parameter `do_open`; no claim below
depends on it.  `openable` models the `fopen` probe. -/

inductive ui_view_mode_t
  | UI_VIEW_INSTRUCTIONS
  | UI_VIEW_STRINGS
  | UI_VIEW_SYMBOLS
deriving DecidableEq, Repr

inductive ui_act_t
  | TUI_ACT_NONE
  | TUI_ACT_QUIT
  | TUI_ACT_REFRESH
  | TUI_ACT_OPEN
deriving DecidableEq, Repr

structure ux_insn_t where
  address : Nat
deriving DecidableEq, Repr, Inhabited

structure ui_model_t where
  instructions : List ux_insn_t
  strings : List (List Nat)
  symbols : List String
  view_mode : ui_view_mode_t
  selected : Int
  scroll : Int
  cmd : String
  status : String
  subtitle : String
deriving DecidableEq, Repr

/-- The view-name literal of the `set_view` status line. -/
def view_name : ui_view_mode_t → String
  | .UI_VIEW_STRINGS => "strings"
  | .UI_VIEW_SYMBOLS => "symbols"
  | .UI_VIEW_INSTRUCTIONS => "instructions"

/-- `ui_model_set_view`: switch the view, reset selection and scroll, report. -/
def ui_model_set_view (model : ui_model_t) (mode : ui_view_mode_t) : ui_model_t :=
  { model with
    view_mode := mode, selected := 0, scroll := 0,
    status := "switched to " ++ view_name mode ++ " view" }

def hex_val (c : Char) : Option Nat :=
  if '0' ≤ c ∧ c ≤ '9' then some (c.toNat - 48)
  else if 'a' ≤ c ∧ c ≤ 'f' then some (c.toNat - 87)
  else if 'A' ≤ c ∧ c ≤ 'F' then some (c.toNat - 55)
  else none

def dec_val (c : Char) : Option Nat :=
  if '0' ≤ c ∧ c ≤ '9' then some (c.toNat - 48) else none

/-- Digit-run accumulator of `strtoull`: value so far and digits consumed. -/
def digits_go (dv : Char → Option Nat) (base : Nat) :
    List Char → Nat → Nat → Nat × Nat
  | [], acc, k => (acc, k)
  | c :: rest, acc, k =>
    match dv c with
    | none => (acc, k)
    | some d => digits_go dv base rest (acc * base + d) (k + 1)

/-- `strtoull(address, &end, base)` for the two bases the source passes:
returns the value (clamped to `ULLONG_MAX`) and the number of characters
consumed; `end == address` corresponds to zero consumed.  With base 16 an
`0x`/`0X` prefix is skipped only when a hex digit follows (otherwise the
subject sequence is just the leading `0`). -/
def strtoull (cs : List Char) (base : Nat) : Nat × Nat :=
  if base == 16 then
    match cs with
    | '0' :: c :: rest =>
      if (c == 'x' || c == 'X') && (match rest with
          | r :: _ => (hex_val r).isSome
          | [] => false) then
        let p := digits_go hex_val 16 rest 0 0
        (min p.1 (2 ^ 64 - 1), p.2 + 2)
      else
        let p := digits_go hex_val 16 cs 0 0
        (min p.1 (2 ^ 64 - 1), p.2)
    | _ =>
      let p := digits_go hex_val 16 cs 0 0
      (min p.1 (2 ^ 64 - 1), p.2)
  else
    let p := digits_go dec_val 10 cs 0 0
    (min p.1 (2 ^ 64 - 1), p.2)

/-- The base selection of the goto handler: 16 iff the address text starts
with `0x` or `0X`, else 10. -/
def goto_base (address : List Char) : Nat :=
  match address with
  | c0 :: c1 :: _ => if c0 = '0' ∧ (c1 = 'x' ∨ c1 = 'X') then 16 else 10
  | _ => 10

/-- The address of instruction `k` (reads like `_get(instructions, k)`). -/
def insn_addr (insns : List ux_insn_t) (k : Nat) : Nat :=
  (insns.getD k default).address

/-- The binary search of the goto handler over `ssize_t` bounds, fuelled by
the loop bound (the interval shrinks every iteration). -/
def goto_bsearch_go (insns : List ux_insn_t) (addr : Nat) :
    Nat → Int → Int → Int → Int
  | 0, _, _, best => best
  | fuel + 1, lo, hi, best =>
    if lo ≤ hi then
      let mid := lo + (hi - lo) / 2
      match insns[mid.toNat]? with
      | none => best
      | some insn =>
        if addr ≤ insn.address then goto_bsearch_go insns addr fuel lo (mid - 1) mid
        else goto_bsearch_go insns addr fuel (mid + 1) hi best
    else best

def goto_bsearch (insns : List ux_insn_t) (addr : Nat) : Int :=
  goto_bsearch_go insns addr (insns.length + 1) 0 ((insns.length : Int) - 1)
    ((insns.length : Int) - 1)

/-- The `goto` branch of `ux_handle_key` (ux.c lines 181-236), entered with
the text after the first space of the command buffer. -/
def ux_goto (model : ui_model_t) (address : List Char) : ui_model_t × ui_act_t :=
  if model.instructions.length == 0 then
    ({ model with status := "no instructions loaded.", cmd := "" }, .TUI_ACT_NONE)
  else if model.view_mode ≠ .UI_VIEW_INSTRUCTIONS then
    ({ model with
        status := "must be in instructions view to goto address.",
        cmd := "" }, .TUI_ACT_NONE)
  else
    let p := strtoull address (goto_base address)
    if p.2 == 0 then
      ({ model with
          status := "invalid address: " ++ String.mk address,
          cmd := "" }, .TUI_ACT_NONE)
    else
      match model.instructions[0]?, model.instructions[model.instructions.length - 1]? with
      | some first, some last =>
        if p.1 < first.address ∨ last.address < p.1 then
          ({ model with
              status := "invalid address: " ++ String.mk address,
              cmd := "" }, .TUI_ACT_NONE)
        else
          let best := goto_bsearch model.instructions p.1
          ({ model with
              selected := best, scroll := best,
              status := "goto 0x" ++ String.mk (Nat.toDigits 16 p.1),
              cmd := "" }, .TUI_ACT_NONE)
      | _, _ =>
        ({ model with status := "no instructions loaded.", cmd := "" }, .TUI_ACT_NONE)

/-- `strchr(cmd, ' ') + 1`: the text after the first space, if any. -/
def after_space (cs : List Char) : Option (List Char) :=
  match cs.dropWhile (fun c => c ≠ ' ') with
  | [] => none
  | _ :: rest => some rest

/-- The enter-key branch of `ux_handle_key`: exact matches for `quit`,
`refresh` and the three `view` commands, then the `strstr`-based `goto` and
`open` dispatch, then the unrecognized-command fallback.  The two `none`
branches mirror the fallthrough when no space exists (unreachable, since the
matched patterns contain a space). -/
def ux_handle_enter (openable : String → Bool)
    (do_open : ui_model_t → String → ui_model_t) (model : ui_model_t) :
    ui_model_t × ui_act_t :=
  if model.cmd = "quit" then (model, .TUI_ACT_QUIT)
  else if model.cmd = "refresh" then ({ model with cmd := "" }, .TUI_ACT_REFRESH)
  else if model.cmd = "view strings" then
    ({ ui_model_set_view model .UI_VIEW_STRINGS with cmd := "" }, .TUI_ACT_NONE)
  else if model.cmd = "view instructions" then
    ({ ui_model_set_view model .UI_VIEW_INSTRUCTIONS with cmd := "" }, .TUI_ACT_NONE)
  else if model.cmd = "view symbols" then
    ({ ui_model_set_view model .UI_VIEW_SYMBOLS with cmd := "" }, .TUI_ACT_NONE)
  else if "goto ".toList <:+: model.cmd.toList then
    match after_space model.cmd.toList with
    | some address => ux_goto model address
    | none => ({ model with cmd := "" }, .TUI_ACT_NONE)
  else if "open ".toList <:+: model.cmd.toList then
    match after_space model.cmd.toList with
    | some fname =>
      let filename := String.mk fname
      if !openable filename then
        ({ model with status := "file could not be found of path: " ++ filename },
          .TUI_ACT_NONE)
      else
        ({ do_open model filename with cmd := "" }, .TUI_ACT_OPEN)
    | none => ({ model with cmd := "" }, .TUI_ACT_NONE)
  else ({ model with status := "unrecognized command.", cmd := "" }, .TUI_ACT_NONE)

/-- Loop invariant of the goto binary search, for an arbitrary (not
necessarily sorted) instruction list: provided `a` does not exceed the last
instruction's address, the search lands on an index whose address is `≥ a`
and whose predecessor (if any) has address `< a`. -/
lemma goto_bsearch_go_post (insns : List ux_insn_t) (a : Nat)
    (hlast : a ≤ insn_addr insns (insns.length - 1)) :
    ∀ (fuel : Nat) (lo hi best : Int),
      0 ≤ lo → lo ≤ best → best < (insns.length : Int) →
      (0 < lo → insn_addr insns (lo - 1).toNat < a) →
      ((hi = best - 1 ∧ a ≤ insn_addr insns best.toNat) ∨
        (hi = (insns.length : Int) - 1 ∧ best = (insns.length : Int) - 1)) →
      (hi + 1 - lo).toNat < fuel →
      0 ≤ goto_bsearch_go insns a fuel lo hi best ∧
      goto_bsearch_go insns a fuel lo hi best < (insns.length : Int) ∧
      a ≤ insn_addr insns (goto_bsearch_go insns a fuel lo hi best).toNat ∧
      (goto_bsearch_go insns a fuel lo hi best = 0 ∨
        insn_addr insns (goto_bsearch_go insns a fuel lo hi best - 1).toNat < a) := by
  intro fuel
  induction fuel with
  | zero => intro lo hi best _ _ _ _ _ hfuel; omega
  | succ f ih =>
    intro lo hi best h0lo hlobest hbestlen hlopred hdisj hfuel
    simp only [goto_bsearch_go]
    by_cases hlohi : lo ≤ hi
    · rw [if_pos hlohi]
      have hmid1 : lo ≤ lo + (hi - lo) / 2 := by omega
      have hmid2 : lo + (hi - lo) / 2 ≤ hi := by omega
      have hhilen : hi < (insns.length : Int) := by
        rcases hdisj with ⟨h1, -⟩ | ⟨h1, -⟩ <;> omega
      have hmidlen : (lo + (hi - lo) / 2).toNat < insns.length := by omega
      split
      · next heq =>
          rw [List.getElem?_eq_getElem hmidlen] at heq
          exact absurd heq (by simp)
      · next insn heq =>
          rw [List.getElem?_eq_getElem hmidlen] at heq
          have haddr : insn.address = insn_addr insns (lo + (hi - lo) / 2).toNat := by
            unfold insn_addr
            rw [List.getD_eq_getElem insns default hmidlen]
            rw [Option.some.inj heq]
          by_cases hcmp : a ≤ insn.address
          · rw [if_pos hcmp]
            apply ih
            · exact h0lo
            · omega
            · omega
            · exact hlopred
            · left
              refine ⟨rfl, ?_⟩
              rw [← haddr]
              exact hcmp
            · omega
          · rw [if_neg hcmp]
            push_neg at hcmp
            apply ih
            · omega
            · rcases hdisj with ⟨h1, h2⟩ | ⟨h1, h2⟩
              · omega
              · by_cases hmeq : lo + (hi - lo) / 2 = hi
                · exfalso
                  have hmn : (lo + (hi - lo) / 2).toNat = insns.length - 1 := by omega
                  rw [haddr, hmn] at hcmp
                  omega
                · omega
            · exact hbestlen
            · intro _
              have hmn : (lo + (hi - lo) / 2 + 1 - 1).toNat =
                  (lo + (hi - lo) / 2).toNat := by omega
              rw [hmn, ← haddr]
              exact hcmp
            · exact hdisj
            · omega
    · rw [if_neg hlohi]
      refine ⟨by omega, by omega, ?_, ?_⟩
      · rcases hdisj with ⟨h1, h2⟩ | ⟨h1, h2⟩
        · exact h2
        · have hbn : best.toNat = insns.length - 1 := by omega
          rw [hbn]
          exact hlast
      · rcases hdisj with ⟨h1, h2⟩ | ⟨h1, h2⟩
        · by_cases hb0 : best = 0
          · exact Or.inl hb0
          · refine Or.inr ?_
            have hbl : (best - 1).toNat = (lo - 1).toNat := by omega
            rw [hbl]
            exact hlopred (by omega)
        · omega

/-- C4 amended.  On an instructions view with a non-empty list and a parsed
address `a`: when `first.address ≤ a ≤ last.address` the handler sets
`selected` and `scroll` to one index whose instruction address is `≥ a` and
whose predecessor (if any) has address `< a` (on an address-sorted list this
is exactly the smallest index with address `≥ a`; on an unsorted list it need
not be the smallest such index); a parsed address outside
`[first.address, last.address]` is rejected with an invalid-address status,
clearing the command buffer and leaving `selected` and `scroll` unchanged. -/
theorem c4_goto_boundary (model : ui_model_t) (address : List Char) (a k : Nat)
    (hview : model.view_mode = .UI_VIEW_INSTRUCTIONS)
    (hne : model.instructions ≠ [])
    (hparse : strtoull address (goto_base address) = (a, k))
    (hk : k ≠ 0) :
    (insn_addr model.instructions 0 ≤ a →
      a ≤ insn_addr model.instructions (model.instructions.length - 1) →
      ((ux_goto model address).1.scroll = (ux_goto model address).1.selected ∧
       0 ≤ (ux_goto model address).1.selected ∧
       (ux_goto model address).1.selected < (model.instructions.length : Int) ∧
       a ≤ insn_addr model.instructions (ux_goto model address).1.selected.toNat ∧
       ((ux_goto model address).1.selected = 0 ∨
         insn_addr model.instructions
           ((ux_goto model address).1.selected - 1).toNat < a))) ∧
    ((a < insn_addr model.instructions 0 ∨
      insn_addr model.instructions (model.instructions.length - 1) < a) →
      (ux_goto model address).1 = { model with
        status := "invalid address: " ++ String.mk address, cmd := "" }) := by
  have h0lt : 0 < model.instructions.length := List.length_pos.mpr hne
  have hlastlt : model.instructions.length - 1 < model.instructions.length := by omega
  have hfirst : model.instructions[0].address = insn_addr model.instructions 0 := by
    unfold insn_addr
    rw [List.getD_eq_getElem _ default h0lt]
  have hlast : model.instructions[model.instructions.length - 1].address =
      insn_addr model.instructions (model.instructions.length - 1) := by
    unfold insn_addr
    rw [List.getD_eq_getElem _ default hlastlt]
  have hlen0 : (model.instructions.length == 0) = false := by
    simp only [beq_eq_false_iff_ne, ne_eq]
    omega
  have hk0 : (k == 0) = false := by simpa using hk
  have hgoto : ux_goto model address =
      (if a < model.instructions[0].address ∨
          model.instructions[model.instructions.length - 1].address < a then
        ({ model with
            status := "invalid address: " ++ String.mk address,
            cmd := "" }, .TUI_ACT_NONE)
      else
        ({ model with
            selected := goto_bsearch model.instructions a,
            scroll := goto_bsearch model.instructions a,
            status := "goto 0x" ++ String.mk (Nat.toDigits 16 a),
            cmd := "" }, .TUI_ACT_NONE)) := by
    unfold ux_goto
    rw [hlen0, hparse]
    simp only [Bool.false_eq_true, if_false]
    rw [if_neg (by simp [hview])]
    simp only [hk0, Bool.false_eq_true, if_false]
    rw [List.getElem?_eq_getElem h0lt, List.getElem?_eq_getElem hlastlt]
  constructor
  · intro hin1 hin2
    have hout : ¬(a < model.instructions[0].address ∨
        model.instructions[model.instructions.length - 1].address < a) := by
      rw [hfirst, hlast]
      omega
    rw [hgoto, if_neg hout]
    have hpost := goto_bsearch_go_post model.instructions a hin2
      (model.instructions.length + 1) 0 ((model.instructions.length : Int) - 1)
      ((model.instructions.length : Int) - 1)
      (by omega) (by omega) (by omega)
      (by intro h; omega)
      (Or.inr ⟨rfl, rfl⟩)
      (by omega)
    exact ⟨rfl, hpost.1, hpost.2.1, hpost.2.2.1, hpost.2.2.2⟩
  · intro hout
    rw [hgoto, if_pos (by rw [hfirst, hlast]; exact hout)]

/-- A model whose instruction addresses are not sorted: `[10, 5, 20]`. -/
def c4_model : ui_model_t :=
  { instructions := [⟨10⟩, ⟨5⟩, ⟨20⟩], strings := [], symbols := [],
    view_mode := .UI_VIEW_INSTRUCTIONS, selected := 0, scroll := 0,
    cmd := "goto 10", status := "", subtitle := "" }

/-- C4 counterexample.  Decoded batches are published in arbitrary order and
the model never sorts, so the goto handler can run on an unsorted list: with
addresses `[10, 5, 20]` and accepted address 10 (`first.address = 10 ≤ 10 ≤
20 = last.address`), the binary search sets `selected = 2` although index 0
already has address `≥ 10` - not the smallest index with address `≥ 10` the
claim promises. -/
theorem c4_not_least_index :
    (ux_goto c4_model ['1', '0']).1.selected = 2 ∧
    insn_addr c4_model.instructions 0 = 10 ∧
    10 ≤ insn_addr c4_model.instructions 0 ∧ (0 : Nat) < 2 := by
  refine ⟨by decide, by decide, by decide, by decide⟩

/-- The sorted model of spec scenario 2. -/
def c4_sorted_model : ui_model_t :=
  { instructions := [⟨0x1000⟩, ⟨0x1003⟩, ⟨0x100A⟩, ⟨0x1012⟩],
    strings := [], symbols := [],
    view_mode := .UI_VIEW_INSTRUCTIONS, selected := 0, scroll := 0,
    cmd := "goto 0x1005", status := "", subtitle := "" }

theorem c4_witness :
    (insn_addr c4_sorted_model.instructions 0 ≤ 0x1005 →
      0x1005 ≤ insn_addr c4_sorted_model.instructions
        (c4_sorted_model.instructions.length - 1) →
      ((ux_goto c4_sorted_model ['0', 'x', '1', '0', '0', '5']).1.scroll =
        (ux_goto c4_sorted_model ['0', 'x', '1', '0', '0', '5']).1.selected ∧
       0 ≤ (ux_goto c4_sorted_model ['0', 'x', '1', '0', '0', '5']).1.selected ∧
       (ux_goto c4_sorted_model ['0', 'x', '1', '0', '0', '5']).1.selected <
         (c4_sorted_model.instructions.length : Int) ∧
       0x1005 ≤ insn_addr c4_sorted_model.instructions
         (ux_goto c4_sorted_model ['0', 'x', '1', '0', '0', '5']).1.selected.toNat ∧
       ((ux_goto c4_sorted_model ['0', 'x', '1', '0', '0', '5']).1.selected = 0 ∨
         insn_addr c4_sorted_model.instructions
           ((ux_goto c4_sorted_model ['0', 'x', '1', '0', '0', '5']).1.selected -
             1).toNat < 0x1005))) ∧
    ((0x1005 < insn_addr c4_sorted_model.instructions 0 ∨
      insn_addr c4_sorted_model.instructions
        (c4_sorted_model.instructions.length - 1) < 0x1005) →
      (ux_goto c4_sorted_model ['0', 'x', '1', '0', '0', '5']).1 =
        { c4_sorted_model with
          status := "invalid address: " ++ String.mk ['0', 'x', '1', '0', '0', '5'],
          cmd := "" }) :=
  c4_goto_boundary c4_sorted_model ['0', 'x', '1', '0', '0', '5'] 0x1005 6
    rfl (by decide) (by decide) (by decide)

/-- C9 amended.  Every rejected command writes a one-line diagnostic to the
status buffer and leaves the view mode and the loaded instructions, strings
and symbols unchanged (the results below are record updates touching only
`status` and `cmd`); the command buffer is cleared in every rejected case
except a failed `open`, whose early return skips the clearing `memset` and
leaves the typed command in place. -/
theorem c9_rejections (openable : String → Bool)
    (do_open : ui_model_t → String → ui_model_t) (model : ui_model_t)
    (h1 : model.cmd ≠ "quit") (h2 : model.cmd ≠ "refresh")
    (h3 : model.cmd ≠ "view strings") (h4 : model.cmd ≠ "view instructions")
    (h5 : model.cmd ≠ "view symbols") :
    (∀ address, "goto ".toList <:+: model.cmd.toList →
      after_space model.cmd.toList = some address →
      model.instructions = [] →
      ux_handle_enter openable do_open model =
        ({ model with status := "no instructions loaded.", cmd := "" },
          .TUI_ACT_NONE)) ∧
    (∀ address, "goto ".toList <:+: model.cmd.toList →
      after_space model.cmd.toList = some address →
      model.instructions ≠ [] →
      model.view_mode ≠ .UI_VIEW_INSTRUCTIONS →
      ux_handle_enter openable do_open model =
        ({ model with
            status := "must be in instructions view to goto address.",
            cmd := "" }, .TUI_ACT_NONE)) ∧
    (∀ address a, "goto ".toList <:+: model.cmd.toList →
      after_space model.cmd.toList = some address →
      model.instructions ≠ [] →
      model.view_mode = .UI_VIEW_INSTRUCTIONS →
      strtoull address (goto_base address) = (a, 0) →
      ux_handle_enter openable do_open model =
        ({ model with
            status := "invalid address: " ++ String.mk address,
            cmd := "" }, .TUI_ACT_NONE)) ∧
    (∀ address a k, "goto ".toList <:+: model.cmd.toList →
      after_space model.cmd.toList = some address →
      model.instructions ≠ [] →
      model.view_mode = .UI_VIEW_INSTRUCTIONS →
      strtoull address (goto_base address) = (a, k) → k ≠ 0 →
      (a < insn_addr model.instructions 0 ∨
        insn_addr model.instructions (model.instructions.length - 1) < a) →
      ux_handle_enter openable do_open model =
        ({ model with
            status := "invalid address: " ++ String.mk address,
            cmd := "" }, .TUI_ACT_NONE)) ∧
    (∀ fname, ¬("goto ".toList <:+: model.cmd.toList) →
      "open ".toList <:+: model.cmd.toList →
      after_space model.cmd.toList = some fname →
      openable (String.mk fname) = false →
      ux_handle_enter openable do_open model =
        ({ model with
            status := "file could not be found of path: " ++ String.mk fname },
          .TUI_ACT_NONE)) ∧
    (¬("goto ".toList <:+: model.cmd.toList) →
      ¬("open ".toList <:+: model.cmd.toList) →
      ux_handle_enter openable do_open model =
        ({ model with status := "unrecognized command.", cmd := "" },
          .TUI_ACT_NONE)) := by
  have henter : ∀ address, "goto ".toList <:+: model.cmd.toList →
      after_space model.cmd.toList = some address →
      ux_handle_enter openable do_open model = ux_goto model address := by
    intro address hinf hsp
    unfold ux_handle_enter
    rw [if_neg h1, if_neg h2, if_neg h3, if_neg h4, if_neg h5, if_pos hinf, hsp]
  refine ⟨?_, ?_, ?_, ?_, ?_, ?_⟩
  · intro address hinf hsp hempty
    rw [henter address hinf hsp]
    unfold ux_goto
    rw [if_pos (by simp [hempty])]
  · intro address hinf hsp hne hview
    rw [henter address hinf hsp]
    unfold ux_goto
    rw [if_neg (by simp [List.length_eq_zero, hne]), if_pos hview]
  · intro address a hinf hsp hne hview hparse
    rw [henter address hinf hsp]
    unfold ux_goto
    rw [if_neg (by simp [List.length_eq_zero, hne]),
      if_neg (by simp [hview]), hparse]
    rfl
  · intro address a k hinf hsp hne hview hparse hk hout
    rw [henter address hinf hsp]
    have h0lt : 0 < model.instructions.length := List.length_pos.mpr hne
    have hlastlt : model.instructions.length - 1 < model.instructions.length := by
      omega
    have hfirst : model.instructions[0].address = insn_addr model.instructions 0 := by
      unfold insn_addr
      rw [List.getD_eq_getElem _ default h0lt]
    have hlast : model.instructions[model.instructions.length - 1].address =
        insn_addr model.instructions (model.instructions.length - 1) := by
      unfold insn_addr
      rw [List.getD_eq_getElem _ default hlastlt]
    unfold ux_goto
    rw [if_neg (by simp [List.length_eq_zero, hne]),
      if_neg (by simp [hview]), hparse]
    have hk0 : (k == 0) = false := by simpa using hk
    simp only [hk0, Bool.false_eq_true, if_false]
    rw [List.getElem?_eq_getElem h0lt, List.getElem?_eq_getElem hlastlt]
    have hcond : a < model.instructions[0].address ∨
        model.instructions[model.instructions.length - 1].address < a := by
      rw [hfirst, hlast]; exact hout
    dsimp only
    rw [if_pos hcond]
  · intro fname hng hinf hsp hopen
    unfold ux_handle_enter
    rw [if_neg h1, if_neg h2, if_neg h3, if_neg h4, if_neg h5, if_neg hng,
      if_pos hinf, hsp]
    simp only [hopen, Bool.not_false, if_pos]
  · intro hng hno
    unfold ux_handle_enter
    rw [if_neg h1, if_neg h2, if_neg h3, if_neg h4, if_neg h5, if_neg hng,
      if_neg hno]

/-- A model holding an `open` command for a file that cannot be opened. -/
def c9_model : ui_model_t :=
  { instructions := [], strings := [], symbols := [],
    view_mode := .UI_VIEW_INSTRUCTIONS, selected := 0, scroll := 0,
    cmd := "open missing", status := "", subtitle := "" }

/-- C9 counterexample.  When `fopen` fails, the open branch returns before
the `memset` that clears the command buffer: the status diagnostic is
written but the command buffer still holds the typed command, refuting the
claim that every rejected command clears it. -/
theorem c9_failed_open_keeps_cmd :
    (ux_handle_enter (fun _ => false) (fun m _ => m) c9_model).1.cmd =
      "open missing" ∧
    (ux_handle_enter (fun _ => false) (fun m _ => m) c9_model).1.status =
      "file could not be found of path: missing" ∧
    "open missing" ≠ "" := by
  refine ⟨by decide, by decide, by decide⟩

/-- A model holding a command no dispatch case recognises. -/
def c9_unrec_model : ui_model_t :=
  { instructions := [], strings := [], symbols := [],
    view_mode := .UI_VIEW_INSTRUCTIONS, selected := 0, scroll := 0,
    cmd := "wat", status := "", subtitle := "" }

theorem c9_witness :
    ux_handle_enter (fun _ => true) (fun m _ => m) c9_unrec_model =
      ({ c9_unrec_model with status := "unrecognized command.", cmd := "" },
        .TUI_ACT_NONE) :=
  (c9_rejections (fun _ => true) (fun m _ => m) c9_unrec_model
    (by decide) (by decide) (by decide) (by decide) (by decide)).2.2.2.2.2
    (by decide) (by decide)

end Lzd
